import Mathlib

/-!
Verification development for the `dex_capital_efficiency` market-maker engine.

The Python sources are shallowly embedded: Python `float` arithmetic is
modelled with exact rationals (`ℚ`), dictionaries with lookup functions or
association lists, in-place mutation with explicit state passing, and
fallible lookups (`KeyError`) with `Option`.  The float operation
`x ** 0.5` is modelled by `ratSqrt`, the exact rational square root; every
concrete state evaluated below only ever takes square roots of perfect
squares, on which `ratSqrt` agrees with the source exactly.
-/

namespace DexCE

/-- Largest `m ≤ fuel` with `m * m ≤ n` (a structurally recursive integer
square root, downward search). -/
def natSqrtFrom (n : ℕ) : ℕ → ℕ
  | 0 => 0
  | m + 1 => if (m + 1) * (m + 1) ≤ n then m + 1 else natSqrtFrom n m

/-- Integer square root (floor), by downward search from `n`. -/
def natSqrt (n : ℕ) : ℕ := natSqrtFrom n n

/-- Exact rational square root: returns `√q` when `q` is the square of a
rational (numerator and denominator of the reduced form are both perfect
squares), and `0` otherwise.  Models the float operation `** 0.5` from the
source; exact precisely on perfect-square inputs. -/
def ratSqrt (q : ℚ) : ℚ :=
  let n := natSqrt q.num.toNat
  let d := natSqrt q.den
  if 0 ≤ q.num ∧ n * n = q.num.toNat ∧ d * d = q.den then (n : ℚ) / (d : ℚ) else 0

/-- `InputTx` (src/inputtx.py): one requested swap. -/
structure InputTx where
  intype : String
  outtype : String
  inval : ℚ
  is_arb : Bool := false
deriving DecidableEq, Repr

/-- `OutputTx` (src/outputtx.py): the realized result of executing a swap.
In the source it is constructed with `after_rate = 1`, which is sometimes
overwritten afterwards by the curve subclasses. -/
structure OutputTx where
  in_type : String
  out_type : String
  inpool_init_val : ℚ
  outpool_init_val : ℚ
  inpool_after_val : ℚ
  outpool_after_val : ℚ
  market_rate : ℚ
  after_rate : ℚ
deriving DecidableEq, Repr

/-- External price vector (`self.prices`): maps a token name to its price. -/
abbrev Prices : Type := String → ℚ

/-- `PairwiseTokenPoolStatus` (src/poolstatus.py): a dictionary from an
ordered token pair `(A, B)` to `[balanceA, balanceB, k]`.  A missing key
(Python `KeyError`) is `none`. -/
abbrev PairState : Type := String × String → Option (ℚ × ℚ × ℚ)

/-- `MultiTokenPoolStatus` (src/poolstatus.py): a dictionary from a token to
`[balance, k]`, kept as an association list so that Python's
insertion-ordered `dict.keys()` iteration is preserved. -/
abbrev MultiState : Type := List (String × ℚ × ℚ)

/-- Dictionary lookup `self.token_info[tok]` for the multi-token topology. -/
def MultiState.lookup : MultiState → String → Option (ℚ × ℚ)
  | [], _ => none
  | (t, b, k) :: rest, tok => if tok = t then some (b, k) else MultiState.lookup rest tok

/-- In-place balance mutation `self.token_info[tok][0] += d` for the
multi-token topology (the k entry is untouched). -/
def MultiState.addBal : MultiState → String → ℚ → MultiState
  | [], _, _ => []
  | (t, b, k) :: rest, tok, d =>
      if tok = t then (t, b + d, k) :: rest else (t, b, k) :: MultiState.addBal rest tok d

/-- The ordered list of tokens, `list(self.token_info.keys())`. -/
def MultiState.tokens (st : MultiState) : List String := st.map (·.1)

/-- `MarketMakerInterface.swap` (src/imarketmaker.py lines 144-171),
multi-token branch, with `out_amt` known and `execute = True`: reads the two
balances, increments the input-token balance by `tx.inval`, decrements the
output-token balance by `out_amt`, and returns the `OutputTx` together with
the new pool state.  A missing token is a `KeyError`, modelled as `none`. -/
def engineSwapMulti (prices : Prices) (st : MultiState) (tx : InputTx) (out_amt : ℚ) :
    Option (OutputTx × MultiState) :=
  match st.lookup tx.intype with
  | none => none
  | some (in0, _) =>
    match st.lookup tx.outtype with
    | none => none
    | some (out0, _) =>
      let st1 := st.addBal tx.intype tx.inval
      let st2 := st1.addBal tx.outtype (-out_amt)
      some (⟨tx.intype, tx.outtype, in0, out0, in0 + tx.inval, out0 - out_amt,
              prices tx.outtype / prices tx.intype, 1⟩, st2)

/-- Dictionary store `self.token_info[key] = v` for the pairwise topology. -/
def PairState.store (st : PairState) (key : String × String) (v : ℚ × ℚ × ℚ) : PairState :=
  fun pr => if pr = key then some v else st pr

/-- `MarketMakerInterface.swap` (src/imarketmaker.py lines 144-171),
pairwise branch, with `out_amt` known and `execute = True`: mutates the
forward entry `(intype, outtype)` by `[0] += inval, [1] -= out_amt`, then
mutates the mirror entry `(outtype, intype)` by `[0] -= out_amt,
[1] += inval` (the mirror read happens after the forward write, matching the
aliasing of the Python lists). -/
def engineSwapPair (prices : Prices) (st : PairState) (tx : InputTx) (out_amt : ℚ) :
    Option (OutputTx × PairState) :=
  match st (tx.intype, tx.outtype) with
  | none => none
  | some (in0, out0, k) =>
    let st1 := st.store (tx.intype, tx.outtype) (in0 + tx.inval, out0 - out_amt, k)
    match st1 (tx.outtype, tx.intype) with
    | none => none
    | some (r0, r1, rk) =>
      let st2 := st1.store (tx.outtype, tx.intype) (r0 - out_amt, r1 + tx.inval, rk)
      some (⟨tx.intype, tx.outtype, in0, out0, in0 + tx.inval, out0 - out_amt,
              prices tx.outtype / prices tx.intype, 1⟩, st2)

/-- `AMM.swap` output amount (src/amm.py lines 33-36): with
`const = in_balance * out_balance` taken from the current balances, the
output amount for input `in_val` is
`const * (1/in_balance - 1/(in_balance + in_val))`. -/
def AMM.outAmt (in_balance out_balance in_val : ℚ) : ℚ :=
  let const := in_balance * out_balance
  const * (1 / in_balance - 1 / (in_balance + in_val))

/-- `MAMM.swap` output amount (src/mamm.py lines 33-36): the multi-token
constant-product engine computes the same formula from the two token
balances. -/
def MAMM.outAmt (in_balance out_balance in_val : ℚ) : ℚ :=
  let const := in_balance * out_balance
  const * (1 / in_balance - 1 / (in_balance + in_val))

/-- `CSMM.swap` (src/csmm.py lines 42-53) invoked without a caller-supplied
output amount: with `p = prices[outtype] / prices[intype]`, if
`inval / p` exceeds the pool's output balance then both the output amount and
`tx.inval` are forced to zero, otherwise the output amount is `inval / p`;
the shared engine swap then executes and `after_rate` is set to `p`. -/
def CSMM.swap (prices : Prices) (st : PairState) (tx : InputTx) :
    Option (OutputTx × PairState) :=
  let p := prices tx.outtype / prices tx.intype
  match st (tx.intype, tx.outtype) with
  | none => none
  | some (_, out_bal, _) =>
    let voided := tx.inval / p > out_bal
    let tx' := if voided then { tx with inval := 0 } else tx
    let out_amt := if voided then 0 else tx.inval / p
    match engineSwapPair prices st tx' out_amt with
    | none => none
    | some (otx, st') => some ({ otx with after_rate := p }, st')

/-- `MCSMM.swap` (src/mcsmm.py lines 42-53) invoked without a caller-supplied
output amount: identical all-or-nothing clamp against the multi-token
output balance `self.token_info[tx.outtype][0]`. -/
def MCSMM.swap (prices : Prices) (st : MultiState) (tx : InputTx) :
    Option (OutputTx × MultiState) :=
  let p := prices tx.outtype / prices tx.intype
  match st.lookup tx.outtype with
  | none => none
  | some (out_bal, _) =>
    let voided := tx.inval / p > out_bal
    let tx' := if voided then { tx with inval := 0 } else tx
    let out_amt := if voided then 0 else tx.inval / p
    match engineSwapMulti prices st tx' out_amt with
    | none => none
    | some (otx, st') => some ({ otx with after_rate := p }, st')

/-- The C2 property for the pairwise constant-sum engine: on a successful
swap with no caller-supplied output amount, the void branch zeroes both
realized amounts and leaves every pool entry unchanged, the normal branch
removes exactly `inval / p`, and (for a nonnegative output balance) the
removed amount never exceeds the output balance held before the swap. -/
def CsmmClaim (prices : Prices) (st : PairState) (tx : InputTx) : Prop :=
  ∀ otx st', CSMM.swap prices st tx = some (otx, st') →
    ∀ x y k, st (tx.intype, tx.outtype) = some (x, y, k) →
      (tx.inval / (prices tx.outtype / prices tx.intype) > y →
        otx.inpool_after_val = otx.inpool_init_val ∧
        otx.outpool_after_val = otx.outpool_init_val ∧
        ∀ pr, st' pr = st pr) ∧
      (¬ tx.inval / (prices tx.outtype / prices tx.intype) > y →
        otx.outpool_init_val - otx.outpool_after_val =
          tx.inval / (prices tx.outtype / prices tx.intype)) ∧
      (0 ≤ y → otx.outpool_init_val - otx.outpool_after_val ≤ y)

/-- The C2 property for the multi-token constant-sum engine. -/
def McsmmClaim (prices : Prices) (st : MultiState) (tx : InputTx) : Prop :=
  ∀ otx st', MCSMM.swap prices st tx = some (otx, st') →
    ∀ b kk, st.lookup tx.outtype = some (b, kk) →
      (tx.inval / (prices tx.outtype / prices tx.intype) > b →
        otx.inpool_after_val = otx.inpool_init_val ∧
        otx.outpool_after_val = otx.outpool_init_val ∧
        st' = st) ∧
      (¬ tx.inval / (prices tx.outtype / prices tx.intype) > b →
        otx.outpool_init_val - otx.outpool_after_val =
          tx.inval / (prices tx.outtype / prices tx.intype)) ∧
      (0 ≤ b → otx.outpool_init_val - otx.outpool_after_val ≤ b)

/-- All-ones price vector used by the concrete witnesses. -/
def wPrices : Prices := fun _ => 1

/-- Concrete two-token pairwise constant-sum pool used by witnesses:
`(A,B) ↦ [5, 5, 0]` with its mirror `(B,A) ↦ [5, 5, 0]`. -/
def wPairCS : PairState := fun pr =>
  if pr = ("A", "B") then some (5, 5, 0)
  else if pr = ("B", "A") then some (5, 5, 0) else none

/-- Concrete multi-token constant-sum pool used by witnesses. -/
def wMultiCS : MultiState := [("A", 5, 0), ("B", 5, 0)]

/-- Concrete oversized transaction (would need 10 output tokens of the 5
available) used by the C2 witness. -/
def wTxBig : InputTx := ⟨"A", "B", 10, false⟩

/-- The pairwise mirror invariant (src/poolstatus.py): entry `(A,B)` holds
`[x, y, k]` exactly when entry `(B,A)` holds `[y, x, k]`. -/
def MirrorInv (st : PairState) : Prop :=
  ∀ A B x y k, st (A, B) = some (x, y, k) → st (B, A) = some (y, x, k)

/-- Concrete unit transaction used by the C4 witness. -/
def wTx1 : InputTx := ⟨"A", "B", 1, false⟩

/-- The pool state produced by executing `wTx1` with output amount 1 on
`wPairCS`. -/
def wSt4 : PairState :=
  (wPairCS.store ("A", "B") (5 + wTx1.inval, 5 - 1, 0)).store ("B", "A")
    (5 - 1, 5 + wTx1.inval, 0)


/-- The dictionary returned by `getRate` (src/imarketmaker.py lines 273-277). -/
structure RateDict where
  in_amt : ℚ
  out_amt : ℚ
  rate : ℚ
deriving DecidableEq, Repr

/-- Shared tail of `MarketMakerInterface.getRate` (src/imarketmaker.py lines
256-277): from the equilibrium balances and the current balances, the input
needed and the output removable to reach equilibrium; the internal rate
`in_amt / out_amt` falls back to 1 on a `ZeroDivisionError` (`out_amt = 0`)
or when it equals zero, and the returned `rate` is `market_rate` divided by
the internal rate. -/
def getRateCore (market_rate in_e out_e in_bal out_bal : ℚ) : RateDict :=
  let in_amt := in_e - in_bal
  let out_amt := out_bal - out_e
  let internal_rate :=
    if out_amt = 0 then 1 else if in_amt / out_amt = 0 then 1 else in_amt / out_amt
  ⟨in_amt, out_amt, market_rate / internal_rate⟩

/-- Current balance `self.token_info[tok][0]` of a token in the multi-token
pool.  The tokens handed to `getRate` and the curve equilibria are always
drawn from the dictionary's own keys, so the default never fires on a
reachable call. -/
def MultiState.bal (st : MultiState) (tok : String) : ℚ :=
  ((MultiState.lookup st tok).getD (0, 0)).1

/-- `MarketMakerInterface.getRate` (src/imarketmaker.py lines 241-277),
multi-token branch, parameterized by the curve-specific
`calculate_equilibriums` of the active subclass (method dispatch in the
source). -/
def getRateMulti (ceq : String → String → ℚ × ℚ) (prices : Prices) (st : MultiState)
    (pool : String × String) : RateDict :=
  let e := ceq pool.1 pool.2
  let market_rate := prices pool.2 / prices pool.1
  getRateCore market_rate e.1 e.2 (st.bal pool.1) (st.bal pool.2)

/-- `MAMM.calculate_equilibriums` (src/mamm.py lines 47-63): with
`const = balIn * balOut` and `market_rate = price[out] / price[in]`, the
output equilibrium is `sqrt(const / market_rate)` and the input equilibrium
is `const` divided by it. -/
def mammCalcEq (prices : Prices) (st : MultiState) (intype outtype : String) : ℚ × ℚ :=
  let const := st.bal intype * st.bal outtype
  let market_rate := prices outtype / prices intype
  let new_out := ratSqrt (const / market_rate)
  (const / new_out, new_out)

/-- `MAMM.swap` (src/mamm.py lines 21-45): recomputes the output amount from
the constant-product formula on the current balances (any caller-supplied
output amount is overwritten, exactly as in the source), executes the shared
engine swap, and sets the `after_rate` diagnostic unless its denominator is
zero (the `ZeroDivisionError` is swallowed). -/
def MAMM.swap (prices : Prices) (st : MultiState) (tx : InputTx) :
    Option (OutputTx × MultiState) :=
  let in_balance := st.bal tx.intype
  let out_balance := st.bal tx.outtype
  let const := in_balance * out_balance
  let out_amt := const * (1 / in_balance - 1 / (in_balance + tx.inval))
  match engineSwapMulti prices st tx out_amt with
  | none => none
  | some (otx, st') =>
    let denom := const * (1 / (in_balance + tx.inval) - 1 / (in_balance + 2 * tx.inval))
    let otx' := if denom = 0 then otx else { otx with after_rate := tx.inval / denom }
    some (otx', st')

/-- One comparison of the arbitrage scan (src/imarketmaker.py lines 211-229):
the tracked best candidate is replaced when the fresh rate dictionary has a
strictly higher `rate` and an `in_amt` above the execution threshold `lim`. -/
def scanStep (rateOf : String × String → RateDict) (lim : ℚ)
    (info : (String × String) × RateDict) (pool : String × String) :
    (String × String) × RateDict :=
  let rate_dict := rateOf pool
  if rate_dict.rate > info.2.rate ∧ rate_dict.in_amt > lim then (pool, rate_dict) else info

/-- One full scan pass over the candidate pools, updating the tracked best
candidate in iteration order. -/
def scanPools (rateOf : String × String → RateDict) (lim : ℚ)
    (pools : List (String × String)) (info : (String × String) × RateDict) :
    (String × String) × RateDict :=
  pools.foldl (scanStep rateOf lim) info

/-- Candidate enumeration of the multi-token arbitrage scan
(src/imarketmaker.py lines 205-221): for each unordered pair in token order,
the forward direction when the output token is not a crash token, then the
reverse direction when the input token is not a crash token. -/
def multiCandidates (crash : List String) : List String → List (String × String)
  | [] => []
  | t :: ts =>
      (ts.bind fun u =>
        (if u ∈ crash then [] else [(t, u)]) ++ (if t ∈ crash then [] else [(u, t)])) ++
      multiCandidates crash ts

/-- Candidate enumeration of the pairwise arbitrage scan
(src/imarketmaker.py lines 222-229): the configured pool keys whose output
token is not a crash token. -/
def pairwiseCandidates (crash : List String) (keys : List (String × String)) :
    List (String × String) :=
  keys.filter fun p => !(crash.contains p.2)

/-- The initial best-candidate tracker `info = [("str", "str"), {"rate": -1}]`
(src/imarketmaker.py line 201).  The source's initial dictionary has no
`in_amt`/`out_amt` keys, but they are only ever read after a scan update has
filled them (the execution guard reads `rate` first and `-1 > 1`
short-circuits), so dummy zeroes are observationally faithful. -/
def arbInfoInit : (String × String) × RateDict := (("str", "str"), ⟨0, 0, -1⟩)

/-- `MarketMakerInterface.arbitrage` (src/imarketmaker.py lines 200-239),
generic over the engine state `σ` and over the engine-specific candidate
enumeration, `getRate` and `swap` (method dispatch in the source).  Each of
at most `self.arb_actions` iterations re-scans the candidates, updating the
tracked best candidate carried over from the previous iteration (the tracker
is initialized once, before the loop, and never reset), then executes it as
a swap when its tracked `rate` exceeds 1 and its tracked `in_amt` is
positive, and otherwise breaks.  Returns the outcome and snapshot lists of
the source plus, as an instrumentation ghost, the list of tracked candidates
actually executed.  A `KeyError` inside the executed swap stops the loop
(the source would raise out of `arbitrage`). -/
def arbLoop {σ : Type} (cand : σ → List (String × String))
    (rateOf : σ → String × String → RateDict)
    (swapEx : σ → InputTx → ℚ → Option (OutputTx × σ)) (lim : ℚ) :
    ℕ → σ → ((String × String) × RateDict) →
    List OutputTx × List σ × List ((String × String) × RateDict)
  | 0, _, _ => ([], [], [])
  | fuel + 1, st, info =>
    let info2 := scanPools (rateOf st) lim (cand st) info
    if info2.2.rate > 1 ∧ info2.2.in_amt > 0 then
      match swapEx st ⟨info2.1.1, info2.1.2, info2.2.in_amt, false⟩ info2.2.out_amt with
      | none => ([], [], [])
      | some (otx, st') =>
        let rest := arbLoop cand rateOf swapEx lim fuel st' info2
        (otx :: rest.1, st' :: rest.2.1, info2 :: rest.2.2)
    else ([], [], [])

/-- `getRate` as dispatched on the multi-token constant-product engine. -/
def mammRateOf (prices : Prices) (st : MultiState) : String × String → RateDict :=
  getRateMulti (mammCalcEq prices st) prices st

/-- `arbitrage` running on the multi-token constant-product engine `MAMM`
(whose `swap` discards the passed output amount and recomputes it, as in
src/mamm.py line 36). -/
def mammArbitrage (prices : Prices) (crash : List String) (arb_actions : ℕ) (lim : ℚ)
    (st : MultiState) :
    List OutputTx × List MultiState × List ((String × String) × RateDict) :=
  arbLoop (fun s => multiCandidates crash s.tokens) (mammRateOf prices)
    (fun s tx _ => MAMM.swap prices s tx) lim arb_actions st arbInfoInit

/-- The fresh scan described by the specification of `arbitrage`: what one
iteration's scan reports when the best-candidate tracker is re-initialized
to `arbInfoInit` instead of being carried over.  This follows the spec's
words ("re-scanning after each execution ... stop as soon as no qualifying
candidate remains") and is compared against the source-translated loop. -/
def freshScanMamm (prices : Prices) (crash : List String) (lim : ℚ) (st : MultiState) :
    (String × String) × RateDict :=
  scanPools (mammRateOf prices st) lim (multiCandidates crash st.tokens) arbInfoInit

/-- Concrete two-token multi-token constant-product pool for the C5
counterexample. -/
def st5 : MultiState := [("A", 4, 0), ("B", 1, 0)]

/-- The default arbitrage execution threshold `lim = 1e-8`
(src/imarketmaker.py line 188). -/
def lim5 : ℚ := 1 / 100000000

/-- Price vector making token B worth twice token A, for the C7
counterexample. -/
def prices7 : Prices := fun t => if t = "B" then 2 else 1

/-- Concrete multi-token pool sitting exactly at its constant-product
equilibrium for the (A, B) direction, for the C7 counterexample. -/
def st7 : MultiState := [("A", 2, 0), ("B", 1, 0)]

/-- A trivial engine used only to witness generic arbitrage-loop theorems:
no candidate pools. -/
def trivialCand : MultiState → List (String × String) := fun _ => []

/-- A trivial rate function used only to witness generic arbitrage-loop
theorems. -/
def trivialRateOf : MultiState → String × String → RateDict := fun _ _ => ⟨0, 0, 0⟩

/-- A trivial swap function used only to witness generic arbitrage-loop
theorems. -/
def trivialSwap : MultiState → InputTx → ℚ → Option (OutputTx × MultiState) :=
  fun _ _ _ => none

/-- Outcome of the Newton iteration `MPMM.__newtonMethod` (src/mpmm.py lines
102-131).  `zeroDivisionCrash` models the iteration-cap branch, which prints
a diagnostic dictionary and then evaluates `print(1/0)`, raising an untyped
`ZeroDivisionError` out of the solver — a crash by side effect, not a typed
solver-failure error. -/
inductive NewtonOutcome where
  | ok (x : ℚ)
  | zeroDivisionCrash
deriving DecidableEq, Repr

/-- The while-loop of `MPMM.__newtonMethod` (src/mpmm.py lines 123-129),
with the numeric step `__update_approx` abstracted as `update` (its damping
inner loop performs transcendental float arithmetic).  `fuel` counts the
loop-body executions still allowed before the source's counter `i` reaches
1000: the source increments `i` once per body and crashes when `i >= 1000`,
i.e. during the 1000th body execution, so the loop is entered with
`fuel = 999` and the crash branch fires when a body starts with no fuel
left (the source computes one more update before crashing; the observable
outcome — an uncaught `ZeroDivisionError` — is the same). -/
def newtonLoop (update : ℚ → ℚ) (tol : ℚ) : ℕ → ℚ → ℚ → NewtonOutcome
  | 0, approx, new_approx =>
      if |new_approx - approx| > tol then NewtonOutcome.zeroDivisionCrash
      else NewtonOutcome.ok new_approx
  | fuel + 1, approx, new_approx =>
      if |new_approx - approx| > tol then
        newtonLoop update tol fuel new_approx (update new_approx)
      else NewtonOutcome.ok new_approx

/-- The initial approximation `min(s/S, l/L) * min([s, S, l, L])` of
`MPMM.__newtonMethod` (src/mpmm.py line 120). -/
def newtonInit (s l S L : ℚ) : ℚ := min (s / S) (l / L) * min (min s S) (min l L)

/-- `MPMM.__newtonMethod` (src/mpmm.py lines 102-131): iterate
`__update_approx` from the initial approximation until successive iterates
differ by at most `tol` (`self.float_tolerance = 1e-5`), with the
1000-iteration cap. -/
def newtonMethod (update : ℚ → ℚ) (tol : ℚ) (s l S L : ℚ) : NewtonOutcome :=
  newtonLoop update tol 999 (newtonInit s l S L) (update (newtonInit s l S L))

/-- The engine's mutable attributes touched by `MarketMakerInterface.swap`:
the pool dictionary `self.token_info` and the live price vector
`self.prices` (which the method only reads, at line 169). -/
structure EngineSt (σ : Type) where
  token_info : σ
  prices : Prices

/-- `MarketMakerInterface.swap` on the full pairwise engine state: the
method writes `self.token_info` only; `self.prices` is passed through. -/
def swapFullPair (es : EngineSt PairState) (tx : InputTx) (out_amt : ℚ) :
    Option (OutputTx × EngineSt PairState) :=
  match engineSwapPair es.prices es.token_info tx out_amt with
  | none => none
  | some (otx, st') => some (otx, ⟨st', es.prices⟩)

/-- `MarketMakerInterface.swap` on the full multi-token engine state: the
method writes `self.token_info` only; `self.prices` is passed through. -/
def swapFullMulti (es : EngineSt MultiState) (tx : InputTx) (out_amt : ℚ) :
    Option (OutputTx × EngineSt MultiState) :=
  match engineSwapMulti es.prices es.token_info tx out_amt with
  | none => none
  | some (otx, st') => some (otx, ⟨st', es.prices⟩)

/-- Complex numbers with rational parts, modelling the Python `complex`
values that the float pipeline of `MPMM.__argMin` can produce. -/
structure CQ where
  re : ℚ
  im : ℚ
deriving DecidableEq, Repr

/-- Embedding of a real (float) value as a complex value. -/
def CQ.ofQ (q : ℚ) : CQ := ⟨q, 0⟩

/-- Complex addition. -/
def CQ.add (z w : CQ) : CQ := ⟨z.re + w.re, z.im + w.im⟩

/-- Complex subtraction. -/
def CQ.sub (z w : CQ) : CQ := ⟨z.re - w.re, z.im - w.im⟩

/-- Complex multiplication. -/
def CQ.mul (z w : CQ) : CQ := ⟨z.re * w.re - z.im * w.im, z.re * w.im + z.im * w.re⟩

/-- Complex division (`z / w = z * conj w / |w|^2`). -/
def CQ.div (z w : CQ) : CQ :=
  let d := w.re ^ 2 + w.im ^ 2
  ⟨(z.re * w.re + z.im * w.im) / d, (z.im * w.re - z.re * w.im) / d⟩

set_option maxHeartbeats 1000000 in
/-- The closed-form intermediate `ans` of `MPMM.__argMin` (src/mpmm.py lines
55-96): the polynomial coefficients `t1 .. t35` and the combinations
`x1 .. x4` are real (rational) and transcribed term by term from the source;
the radicals are supplied as parameters, because Python evaluates them in
transcendental float arithmetic — `sqrtC` models `(...) ** 0.5` (complex
when its argument is negative), `cbrtC` models `(...) ** (1/3)` on the
possibly complex base, and `cbrt2` models the float constant `2 ** (1/3)`
(so `2 ** (2/3)` is its square). -/
def mpmmArgMinAns (sqrtC : ℚ → CQ) (cbrtC : CQ → CQ) (cbrt2 : ℚ)
    (s l k p S L : ℚ) : CQ :=
  let t1 := 4*k*L^2*p*s*S^2
  let t2 := 4*k^2*l*p^2*S^4
  let t3 := 8*k^2*L*p^2*S^4
  let t4 := k*p^3*s*S^4
  let t5 := L^4*s^2+4*k*l*L^2*p*s*S^2
  let t6 := 4*k*L^3*p*s*S^2
  let t7 := L^2*p^2*s^2*S^2
  let t8 := 8*k^2*l*L*p^2*S^4
  let t9 := 4*k^2*L^2*p^2*S^4
  let t10 := 2*k*L*p^3*s*S^4
  let t11 := 1024*k^3*L^6*p^3*s^3*S^6
  let t12 := 6144*k^4*l*L^4*p^4*s^2*S^8
  let t13 := 6144*k^4*L^5*p^4*s^2*S^8
  let t14 := 5376*k^3*L^4*p^5*s^3*S^8
  let t15 := 27648*k^4*L^4*p^5*s^3*S^8
  let t16 := 27648*k^5*L^4*p^5*s^3*S^8
  let t17 := 27648*k^4*L^4*p^5*s^2*S^9
  let t18 := 55296*k^5*L^4*p^5*s^2*S^9
  let t19 := 12288*k^5*l^2*L^2*p^5*s*S^10
  let t20 := 24576*k^5*l*L^3*p^5*s*S^10
  let t21 := 39936*k^5*L^4*p^5*s*S^10
  let t22 := 6144*k^4*l*L^2*p^6*s^2*S^10
  let t23 := 6144*k^4*L^3*p^6*s^2*S^10
  let t24 := 768*k^3*L^2*p^7*s^3*S^10
  let t25 := 8192*k^6*l^3*p^6*S^12
  let t26 := 24576*k^6*l^2*L*p^6*S^12
  let t27 := 24576*k^6*l*L^2*p^6*S^12
  let t28 := 8192*k^6*L^3*p^6*S^12
  let t29 := 6144*k^5*l^2*p^7*s*S^12
  let t30 := 12288*k^5*l*L*p^7*s*S^12
  let t31 := 6144*k^5*L^2*p^7*s*S^12
  let t32 := 1536*k^4*l*p^8*s^2*S^12
  let t33 := 1536*k^4*L*p^8*s^2*S^12
  let t34 := 128*k^3*p^9*s^3*S^12
  let t35 := k^2*p^2*S^4
  let x1 := t1+t2+t3+t4
  let x2 := t5+t6+t7+t8+t9+t10
  let x3 := t11-t12+t13+t14-t15+t16+t17-t18+t19-t20+t21+t22-t23+t24-t25+t26-t27+t28-t29+t30-t31-t32+t33-t34
  let x4 := -16*x1^2+192*t35*x2
  let x5 := cbrtC ((CQ.ofQ x3).add (sqrtC (x3^2+4*x4^3)))
  ((CQ.ofQ (x1/(12*t35))).add
    ((CQ.ofQ x4).div ((CQ.ofQ (24*cbrt2^2*t35)).mul x5))).sub
    ((CQ.ofQ (1/(48*cbrt2*t35))).mul x5)

/-- `MPMM.__argMin` (src/mpmm.py lines 37-100): compute the closed-form
`ans`; when it is complex, return `ans.real` — the real component of the
complex value — and otherwise return `ans` itself, which for a real value
is the same as its real component.  No fallback to `__newtonMethod` exists
in the source: `__getEquilibrium` (line 255) calls only `__argMin`, and
`__newtonMethod` has no call site. -/
def mpmmArgMin (sqrtC : ℚ → CQ) (cbrtC : CQ → CQ) (cbrt2 : ℚ)
    (s l k p S L : ℚ) : ℚ :=
  let ans := mpmmArgMinAns sqrtC cbrtC cbrt2 s l k p S L
  if ans.im ≠ 0 then ans.re else ans.re

/-- `PMM.__solveLong` (src/pmm.py lines 22-38). -/
def PMM.solveLong (x l_e s_e p k : ℚ) : ℚ :=
  l_e - p * (x - s_e) * (1 - k + k * s_e / x)

/-- `PMM.__solveShort` (src/pmm.py lines 40-56); the float `** 0.5` is
`ratSqrt`. -/
def PMM.solveShort (y L S p k : ℚ) : ℚ :=
  (y - L - p*S + 2*k*p*S -
      ratSqrt (y^2 - 2*y*L + L^2 - 2*y*p*S + 4*k*y*p*S + 2*L*p*S - 4*k*L*p*S + p^2*S^2)) /
    (2*(-1+k)*p)

/-- `PMM.calculate_equilibriums` (src/pmm.py lines 113-146): pick the long
side by comparing current-to-stored-equilibrium balance ratios, solve the
shortage-side equilibrium in closed form, and return the pair in
(input, output) order.  A missing pool key is a `KeyError` (`none`). -/
def PMM.calculateEquilibriums (prices : Prices) (ti eq : PairState)
    (intype outtype : String) : Option (ℚ × ℚ) :=
  match ti (intype, outtype), eq (intype, outtype) with
  | some (tb0, tb1, k), some (eb0, eb1, _) =>
    if tb0 / eb0 ≥ tb1 / eb1 then
      let l_b := tb0
      let s_b := tb1
      let l_e := eb0
      let p := prices outtype / prices intype
      let s_e := s_b + s_b/(2*k)*(ratSqrt (1 + (4*k*(l_b - l_e))/(s_b*p)) - 1)
      some (l_e, s_e)
    else
      let l_b := tb1
      let s_b := tb0
      let l_e := eb1
      let p := prices intype / prices outtype
      let s_e := s_b + s_b/(2*k)*(ratSqrt (1 + (4*k*(l_b - l_e))/(s_b*p)) - 1)
      some (s_e, l_e)
  | _, _ => none

/-- The output-equilibrium branch of `PMM.swap` (src/pmm.py lines 79-93):
pick the long/short side from the surplus test and solve the post-swap
excess balance `new_pt` in closed form. -/
def PMM.newPt (i_0 o_0 in_e out_e k p d : ℚ) : ℚ :=
  if o_0 / out_e > i_0 / in_e then
    let s_e := in_e
    let l_e := out_e
    let static_amt := s_e - i_0
    if static_amt < d then PMM.solveShort (d - static_amt + s_e) s_e l_e p k
    else PMM.solveLong (i_0 + d) l_e s_e (1/p) k
  else
    PMM.solveShort (i_0 + d) in_e out_e p k

/-- `MarketMakerInterface.swap` with `execute = False`
(src/imarketmaker.py lines 150-171): the balance reads and the `OutputTx`
without any mutation (lines 154-160 are skipped). -/
def engineSwapPairNoExec (prices : Prices) (st : PairState) (tx : InputTx)
    (out_amt : ℚ) : Option OutputTx :=
  match st (tx.intype, tx.outtype) with
  | none => none
  | some (in0, out0, _) =>
    some ⟨tx.intype, tx.outtype, in0, out0, in0 + tx.inval, out0 - out_amt,
      prices tx.outtype / prices tx.intype, 1⟩

/-- `PMM.swap` with `out_amt = None` and `execute = False` (src/pmm.py lines
58-98 with the `if execute` block skipped): the probe used to compute the
`after_rate` diagnostic. -/
def PMM.swapNoExec (prices : Prices) (ti eq : PairState) (tx : InputTx) :
    Option OutputTx :=
  match ti (tx.intype, tx.outtype) with
  | none => none
  | some (i_0, o_0, k) =>
    match PMM.calculateEquilibriums prices ti eq tx.intype tx.outtype with
    | none => none
    | some (in_e, out_e) =>
      let p := prices tx.outtype / prices tx.intype
      let new_pt := PMM.newPt i_0 o_0 in_e out_e k p tx.inval
      engineSwapPairNoExec prices ti tx (o_0 - new_pt)

/-- `PMM.swap` with `out_amt = None` and `execute = True` (src/pmm.py lines
58-111): compute the output amount, execute the shared engine swap, write
both equilibrium entries `[in_e, out_e, k]` / `[out_e, in_e, k]` into
`self.equilibriums` (lines 100-102 — the only place the engine mutates the
Equilibrium Snapshot), then probe the post-swap rate with an
`execute = False` re-entry and set `after_rate` unless the probe's
denominator is zero.  Returns the outcome and the new
(`token_info`, `equilibriums`) pair. -/
def PMM.swap (prices : Prices) (ti eq : PairState) (tx : InputTx) :
    Option (OutputTx × PairState × PairState) :=
  match ti (tx.intype, tx.outtype) with
  | none => none
  | some (i_0, o_0, k) =>
    match PMM.calculateEquilibriums prices ti eq tx.intype tx.outtype with
    | none => none
    | some (in_e, out_e) =>
      let p := prices tx.outtype / prices tx.intype
      let new_pt := PMM.newPt i_0 o_0 in_e out_e k p tx.inval
      match engineSwapPair prices ti tx (o_0 - new_pt) with
      | none => none
      | some (otx, ti2) =>
        let eq2 := (eq.store (tx.intype, tx.outtype) (in_e, out_e, k)).store
          (tx.outtype, tx.intype) (out_e, in_e, k)
        let otx2 :=
          match PMM.swapNoExec prices ti2 eq2 tx with
          | none => otx
          | some o =>
            let denom := o.outpool_init_val - o.outpool_after_val
            if denom = 0 then otx else { otx with after_rate := tx.inval / denom }
        some (otx2, ti2, eq2)

/-- Ghost record of one batch of `simulate_traffic` in reset mode: the
batch-start snapshots of the Pool State and the Equilibrium Snapshot, and
the live (`token_info`, `equilibriums`) pair at the moment each transaction
of the batch begins. -/
structure BatchTrace (σ : Type) where
  startTok : σ
  startEq : σ
  preTx : List (σ × σ)

/-- The inner transaction loop of `simulate_traffic`
(src/imarketmaker.py lines 105-119) in reset-per-transaction mode
(`self.reset_tx = True`), generic over the engine's `swap` (method
dispatch), restricted to non-arbitrage traffic (`self.arb = False`), and
keeping the state evolution plus the ghost pre-transaction states.  The
live state is `(token_info, equilibriums)`; after each transaction only
`token_info` is reassigned from `token_info_copy` (lines 117-119), which is
threaded explicitly; `equilibriums` keeps the value the swap left.  Returns
the final live state, the final `token_info_copy`, and the ghost list. -/
def runBatchReset {σ : Type} (swapStep : σ × σ → InputTx → σ × σ) :
    List InputTx → σ × σ → σ → ((σ × σ) × σ) × List (σ × σ)
  | [], st, ti_copy => ((st, ti_copy), [])
  | tx :: rest, st, ti_copy =>
      let nxt := swapStep st tx
      let step := runBatchReset swapStep rest (ti_copy, nxt.2) ti_copy
      (step.1, st :: step.2)

/-- The batch loop of `simulate_traffic` (src/imarketmaker.py lines 84-124)
in reset-per-transaction mode: at each batch boundary both the Pool State
and the Equilibrium Snapshot are restored from their copies and the copies
are refreshed (lines 99-103); the live price vector is the batch's own
(line 95).  Python's deepcopies are value copies here.  Returns one ghost
`BatchTrace` per batch. -/
def simulateTrafficReset {σ : Type} (swapStep : Prices → σ × σ → InputTx → σ × σ) :
    List (Prices × List InputTx) → σ × σ → σ × σ → List (BatchTrace σ)
  | [], _, _ => []
  | (prices, batch) :: more, _, copies =>
      let ti1 := copies.1
      let eq1 := copies.2
      let run := runBatchReset (swapStep prices) batch (ti1, eq1) ti1
      { startTok := ti1, startEq := eq1, preTx := run.2 } ::
        simulateTrafficReset swapStep more run.1.1 (run.1.2, eq1)

/-- The PMM engine's transaction step for the simulation loop: a `KeyError`
(`none`) would propagate out of `simulate_traffic` in the source; the
modelled runs never reach it. -/
def pmmStep (prices : Prices) (st : PairState × PairState) (tx : InputTx) :
    PairState × PairState :=
  match PMM.swap prices st.1 st.2 tx with
  | none => st
  | some (_, ti2, eq2) => (ti2, eq2)

/-- Concrete PMM pool state after `configure_simulation` with initializer
`k = 3/8` and override `k = 1/2`: the override loop (src/imarketmaker.py
lines 52-54) rewrites the `k` entries of `token_info` only. -/
def ti0 : PairState := fun pr =>
  if pr = ("A", "B") then some (6, 4, 1/2)
  else if pr = ("B", "A") then some (4, 6, 1/2) else none

/-- The matching Equilibrium Snapshot: deep-copied from `token_info` before
the `k` override (src/imarketmaker.py lines 49-54), so it keeps the
initializer `k = 3/8`. -/
def eq0 : PairState := fun pr =>
  if pr = ("A", "B") then some (6, 4, 3/8)
  else if pr = ("B", "A") then some (4, 6, 3/8) else none

/-- Concrete transaction driving the C9 run. -/
def tx9 : InputTx := ⟨"A", "B", 3, false⟩

/-- Claim C1: for every constant-product swap (pairwise `AMM.swap` or
multi-token `MAMM.swap`) with `balanceIn_before > 0` and
`balanceIn_before + inputAmount ≠ 0`, the product of the two balances is
preserved exactly across the single swap:
`balanceIn_before * balanceOut_before
  = (balanceIn_before + inputAmount) * (balanceOut_before - outputAmount)`. -/
theorem c1_constant_product_preserved (bIn bOut d : ℚ)
    (hpos : 0 < bIn) (hne : bIn + d ≠ 0) :
    bIn * bOut = (bIn + d) * (bOut - AMM.outAmt bIn bOut d) ∧
    bIn * bOut = (bIn + d) * (bOut - MAMM.outAmt bIn bOut d) := by
  have hIn : bIn ≠ 0 := ne_of_gt hpos
  constructor <;>
    · simp only [AMM.outAmt, MAMM.outAmt]
      field_simp
      ring

/-- Witness for C1 at the concrete swap `bIn = 2`, `bOut = 3`, `d = 1`. -/
theorem c1_constant_product_preserved_witness :
    (0 : ℚ) < 2 ∧ ((2 : ℚ) + 1 ≠ 0) ∧
    ((2 : ℚ) * 3 = (2 + 1) * (3 - AMM.outAmt 2 3 1) ∧
     (2 : ℚ) * 3 = (2 + 1) * (3 - MAMM.outAmt 2 3 1)) :=
  ⟨by norm_num, by norm_num,
    c1_constant_product_preserved 2 3 1 (by norm_num) (by norm_num)⟩

/-- Lookup after a store: same key. -/
theorem PairState.store_same (st : PairState) (key : String × String) (v : ℚ × ℚ × ℚ) :
    st.store key v key = some v := if_pos rfl

/-- Lookup after a store: distinct key. -/
theorem PairState.store_other (st : PairState) (key : String × String) (v : ℚ × ℚ × ℚ)
    (pr : String × String) (h : pr ≠ key) : st.store key v pr = st pr := if_neg h

/-- Adding zero to a balance leaves the multi-token pool dictionary
unchanged. -/
theorem MultiState.addBal_zero (st : MultiState) (tok : String) :
    st.addBal tok 0 = st := by
  induction st with
  | nil => rfl
  | cons hd tl ih =>
    obtain ⟨t, b, k⟩ := hd
    simp only [MultiState.addBal, add_zero, ih]
    split <;> rfl

/-- Claim C2: every constant-sum swap (pairwise `CSMM.swap` or multi-token
`MCSMM.swap`) invoked without a caller-supplied output amount, with positive
market rate, either is voided entirely (zero realized input and output, all
pool balances unchanged) when `inval / marketRate` exceeds the available
output balance, or removes exactly `inval / marketRate`; in all cases the
removed amount is at most the output balance held before the swap. -/
theorem c2_constant_sum_clamp (prices : Prices) (stp : PairState) (stm : MultiState)
    (tx : InputTx)
    (hp : 0 < prices tx.outtype / prices tx.intype) :
    CsmmClaim prices stp tx ∧ McsmmClaim prices stm tx := by
  constructor
  · intro otx st' hswap x y k hlook
    unfold CSMM.swap at hswap
    rw [hlook] at hswap
    simp only at hswap
    by_cases hv : tx.inval / (prices tx.outtype / prices tx.intype) > y
    · rw [if_pos hv, if_pos hv] at hswap
      unfold engineSwapPair at hswap
      simp only [hlook] at hswap
      set st1 := stp.store (tx.intype, tx.outtype) (x + 0, y - 0, k) with hst1
      rcases hR : st1 (tx.outtype, tx.intype) with _ | ⟨r0, r1, rk⟩
      · rw [hR] at hswap; exact absurd hswap (by simp)
      · rw [hR] at hswap
        simp only [Option.some.injEq, Prod.mk.injEq] at hswap
        obtain ⟨hotx, hst'⟩ := hswap
        subst hotx
        subst hst'
        refine ⟨fun _ => ⟨by simp, by simp, ?_⟩, fun hc => absurd hv hc,
          fun h0 => by simpa using h0⟩
        intro pr
        have hst1p : ∀ q, st1 q = stp q := by
          intro q
          by_cases hq : q = (tx.intype, tx.outtype)
          · subst hq; rw [hst1, PairState.store_same, hlook]; norm_num
          · rw [hst1, PairState.store_other _ _ _ _ hq]
        by_cases hq : pr = (tx.outtype, tx.intype)
        · subst hq
          rw [PairState.store_same, ← hst1p, hR]; norm_num
        · rw [PairState.store_other _ _ _ _ hq, hst1p]
    · rw [if_neg hv, if_neg hv] at hswap
      unfold engineSwapPair at hswap
      simp only [hlook] at hswap
      rcases hR : (stp.store (tx.intype, tx.outtype)
          (x + tx.inval, y - tx.inval / (prices tx.outtype / prices tx.intype), k))
          (tx.outtype, tx.intype) with _ | ⟨r0, r1, rk⟩
      · rw [hR] at hswap; exact absurd hswap (by simp)
      · rw [hR] at hswap
        simp only [Option.some.injEq, Prod.mk.injEq] at hswap
        obtain ⟨hotx, hst'⟩ := hswap
        subst hotx
        refine ⟨fun h => absurd h hv, fun _ => by simp, fun _ => ?_⟩
        simp only [OutputTx.mk.injEq]
        simp
        linarith [not_lt.mp hv]
  · intro otx st' hswap b kk hlook
    unfold MCSMM.swap at hswap
    rw [hlook] at hswap
    simp only at hswap
    by_cases hv : tx.inval / (prices tx.outtype / prices tx.intype) > b
    · rw [if_pos hv, if_pos hv] at hswap
      unfold engineSwapMulti at hswap
      rcases hI : stm.lookup tx.intype with _ | ⟨i0, ik⟩
      · rw [hI] at hswap; exact absurd hswap (by simp)
      · rw [hI, hlook] at hswap
        simp only [neg_zero, MultiState.addBal_zero, Option.some.injEq,
          Prod.mk.injEq] at hswap
        obtain ⟨hotx, hst'⟩ := hswap
        subst hotx
        exact ⟨fun _ => ⟨by simp, by simp, hst'.symm⟩, fun hc => absurd hv hc,
          fun h0 => by simpa using h0⟩
    · rw [if_neg hv, if_neg hv] at hswap
      unfold engineSwapMulti at hswap
      rcases hI : stm.lookup tx.intype with _ | ⟨i0, ik⟩
      · rw [hI] at hswap; exact absurd hswap (by simp)
      · rw [hI, hlook] at hswap
        simp only [Option.some.injEq, Prod.mk.injEq] at hswap
        obtain ⟨hotx, hst'⟩ := hswap
        subst hotx
        refine ⟨fun h => absurd h hv, fun _ => by simp, fun _ => ?_⟩
        simp
        linarith [not_lt.mp hv]

/-- Witness for C2 at the concrete constant-sum pools and transaction. -/
theorem c2_constant_sum_clamp_witness :
    (0 < wPrices wTxBig.outtype / wPrices wTxBig.intype) ∧
    (CsmmClaim wPrices wPairCS wTxBig ∧ McsmmClaim wPrices wMultiCS wTxBig) :=
  ⟨by norm_num [wPrices], c2_constant_sum_clamp wPrices wPairCS wMultiCS wTxBig
    (by norm_num [wPrices])⟩

/-- Claim C4: an executed swap on the pairwise engine
(src/imarketmaker.py lines 150-160) preserves the mirror invariant — the
forward and mirror entries are updated symmetrically and `k` is unchanged. -/
theorem c4_mirror_invariant_preserved (prices : Prices) (st : PairState) (tx : InputTx)
    (o : ℚ) (otx : OutputTx) (st' : PairState)
    (hM : MirrorInv st) (h : engineSwapPair prices st tx o = some (otx, st')) :
    MirrorInv st' := by
  unfold engineSwapPair at h
  rcases hF : st (tx.intype, tx.outtype) with _ | ⟨in0, out0, k⟩
  · rw [hF] at h; exact absurd h (by simp)
  rw [hF] at h
  simp only at h
  set st1 := st.store (tx.intype, tx.outtype) (in0 + tx.inval, out0 - o, k) with hst1
  rcases hR : st1 (tx.outtype, tx.intype) with _ | ⟨r0, r1, rk⟩
  · rw [hR] at h; exact absurd h (by simp)
  rw [hR] at h
  simp only [Option.some.injEq, Prod.mk.injEq] at h
  obtain ⟨-, hst'⟩ := h
  subst hst'
  intro A B x y k' hAB
  by_cases hsame : tx.intype = tx.outtype
  · -- degenerate swap on a single token: the forward and mirror entry alias
    have hdiag : st (tx.intype, tx.intype) = some (in0, out0, k) := by
      rw [← hF]; rw [hsame]
    have hdiag' := hM _ _ _ _ _ hdiag
    rw [hdiag] at hdiag'
    obtain ⟨h1, -⟩ : in0 = out0 ∧ out0 = in0 := by simpa using hdiag'
    obtain ⟨hr0, hr1, hrk⟩ : in0 + tx.inval = r0 ∧ out0 - o = r1 ∧ k = rk := by
      have hstR : st1 (tx.outtype, tx.intype) = some (in0 + tx.inval, out0 - o, k) := by
        rw [hst1]
        have he : ((tx.outtype, tx.intype) : String × String) = (tx.intype, tx.outtype) := by
          rw [hsame]
        rw [he, PairState.store_same]
      rw [hR] at hstR
      simpa using hstR.symm
    by_cases hk : (A, B) = (tx.outtype, tx.intype)
    · rw [hk, PairState.store_same] at hAB
      obtain ⟨hx, hy, hks⟩ : r0 - o = x ∧ r1 + tx.inval = y ∧ rk = k' := by
        simpa using hAB
      have hA' : A = tx.outtype := congrArg Prod.fst hk
      have hB' : B = tx.intype := congrArg Prod.snd hk
      have hBA : (B, A) = (tx.outtype, tx.intype) := by rw [hA', hB', hsame]
      rw [hBA, PairState.store_same]
      simp only [Option.some.injEq, Prod.mk.injEq]
      refine ⟨?_, ?_, by rw [← hks]⟩
      · rw [← hy, ← hr0, ← hr1, h1]; ring
      · rw [← hx, ← hr0, ← hr1, h1]; ring
    · have hBA : (B, A) ≠ (tx.outtype, tx.intype) := by
        intro hc
        apply hk
        have hB' : B = tx.outtype := congrArg Prod.fst hc
        have hA' : A = tx.intype := congrArg Prod.snd hc
        rw [hA', hB', hsame]
      rw [PairState.store_other _ _ _ _ hk] at hAB
      rw [PairState.store_other _ _ _ _ hBA]
      have hkF : (A, B) ≠ (tx.intype, tx.outtype) := by
        intro hc; exact hk (by rw [hc, hsame])
      have hBAF : (B, A) ≠ (tx.intype, tx.outtype) := by
        intro hc; exact hBA (by rw [hc, hsame])
      rw [hst1, PairState.store_other _ _ _ _ hkF] at hAB
      rw [hst1, PairState.store_other _ _ _ _ hBAF]
      exact hM _ _ _ _ _ hAB
  · -- distinct tokens: forward and mirror entries are separate keys
    have hFR : (tx.intype, tx.outtype) ≠ (tx.outtype, tx.intype) := by
      intro hc
      exact hsame (congrArg Prod.fst hc)
    have hRst : st (tx.outtype, tx.intype) = some (r0, r1, rk) := by
      rw [← hR, hst1, PairState.store_other _ _ _ _ hFR.symm]
    have hRmir := hM _ _ _ _ _ hF
    rw [hRst] at hRmir
    obtain ⟨hr0, hr1, hrk⟩ : r0 = out0 ∧ r1 = in0 ∧ rk = k := by
      simpa using hRmir
    by_cases hkR : (A, B) = (tx.outtype, tx.intype)
    · rw [hkR, PairState.store_same] at hAB
      obtain ⟨hx, hy, hks⟩ : r0 - o = x ∧ r1 + tx.inval = y ∧ rk = k' := by
        simpa using hAB
      have hA' : A = tx.outtype := congrArg Prod.fst hkR
      have hB' : B = tx.intype := congrArg Prod.snd hkR
      have hBA : (B, A) = (tx.intype, tx.outtype) := by rw [hA', hB']
      rw [hBA, PairState.store_other _ _ _ _ hFR, hst1, PairState.store_same]
      simp only [Option.some.injEq, Prod.mk.injEq]
      exact ⟨by rw [← hy, ← hr1], by rw [← hx, ← hr0], by rw [← hks, hrk]⟩
    · by_cases hkF : (A, B) = (tx.intype, tx.outtype)
      · rw [PairState.store_other _ _ _ _ hkR, hst1, hkF, PairState.store_same] at hAB
        obtain ⟨hx, hy, hks⟩ : in0 + tx.inval = x ∧ out0 - o = y ∧ k = k' := by
          simpa using hAB
        have hA' : A = tx.intype := congrArg Prod.fst hkF
        have hB' : B = tx.outtype := congrArg Prod.snd hkF
        have hBA : (B, A) = (tx.outtype, tx.intype) := by rw [hA', hB']
        rw [hBA, PairState.store_same]
        simp only [Option.some.injEq, Prod.mk.injEq]
        exact ⟨by rw [← hy, hr0], by rw [← hx, hr1], by rw [← hks, hrk]⟩
      · have hBAR : (B, A) ≠ (tx.outtype, tx.intype) := by
          intro hc
          have hB' : B = tx.outtype := congrArg Prod.fst hc
          have hA' : A = tx.intype := congrArg Prod.snd hc
          exact hkF (by rw [hA', hB'])
        have hBAF : (B, A) ≠ (tx.intype, tx.outtype) := by
          intro hc
          have hB' : B = tx.intype := congrArg Prod.fst hc
          have hA' : A = tx.outtype := congrArg Prod.snd hc
          exact hkR (by rw [hA', hB'])
        rw [PairState.store_other _ _ _ _ hkR, hst1,
          PairState.store_other _ _ _ _ hkF] at hAB
        rw [PairState.store_other _ _ _ _ hBAR, hst1,
          PairState.store_other _ _ _ _ hBAF]
        exact hM _ _ _ _ _ hAB

/-- Witness for C4: the mirror invariant holds for the concrete pool
`wPairCS`, the swap executes, and the invariant holds afterwards. -/
theorem c4_mirror_invariant_preserved_witness :
    MirrorInv wPairCS ∧
    engineSwapPair wPrices wPairCS wTx1 1 =
      some (⟨"A", "B", 5, 5, 5 + wTx1.inval, 5 - 1, wPrices "B" / wPrices "A", 1⟩, wSt4) ∧
    MirrorInv wSt4 := by
  have hM : MirrorInv wPairCS := by
    intro A B x y k h
    unfold wPairCS at h ⊢
    by_cases h1 : (A, B) = (("A" : String), ("B" : String))
    · obtain ⟨hA, hB⟩ := Prod.mk.injEq .. ▸ h1
      rw [if_pos h1] at h
      obtain ⟨hx, hy, hk⟩ : (5 : ℚ) = x ∧ (5 : ℚ) = y ∧ (0 : ℚ) = k := by simpa using h
      subst hA; subst hB
      simp [← hx, ← hy, ← hk]
    · rw [if_neg h1] at h
      by_cases h2 : (A, B) = (("B" : String), ("A" : String))
      · obtain ⟨hA, hB⟩ := Prod.mk.injEq .. ▸ h2
        rw [if_pos h2] at h
        obtain ⟨hx, hy, hk⟩ : (5 : ℚ) = x ∧ (5 : ℚ) = y ∧ (0 : ℚ) = k := by simpa using h
        subst hA; subst hB
        simp [← hx, ← hy, ← hk]
      · rw [if_neg h2] at h
        exact absurd h (by simp)
  have hswap : engineSwapPair wPrices wPairCS wTx1 1 =
      some (⟨"A", "B", 5, 5, 5 + wTx1.inval, 5 - 1, wPrices "B" / wPrices "A", 1⟩, wSt4) := by
    rfl
  exact ⟨hM, hswap, c4_mirror_invariant_preserved wPrices wPairCS wTx1 1 _ _ hM hswap⟩

/-- The scan never lowers the tracked rate: one step keeps or raises it. -/
theorem scanStep_rate_mono (rateOf : String × String → RateDict) (lim : ℚ)
    (info : (String × String) × RateDict) (pool : String × String) :
    info.2.rate ≤ (scanStep rateOf lim info pool).2.rate := by
  simp only [scanStep]
  by_cases hc : (rateOf pool).rate > info.2.rate ∧ (rateOf pool).in_amt > lim
  · rw [if_pos hc]
    exact le_of_lt hc.1
  · rw [if_neg hc]

/-- The scan never lowers the tracked rate across a whole pass. -/
theorem scanPools_rate_mono (rateOf : String × String → RateDict) (lim : ℚ)
    (pools : List (String × String)) (info : (String × String) × RateDict) :
    info.2.rate ≤ (scanPools rateOf lim pools info).2.rate := by
  induction pools generalizing info with
  | nil => exact le_refl _
  | cons p ps ih =>
    exact le_trans (scanStep_rate_mono rateOf lim info p) (ih (scanStep rateOf lim info p))

/-- Evaluation of the exact rational square root at 1. -/
theorem ratSqrt_one : ratSqrt 1 = 1 := by
  norm_num [ratSqrt, natSqrt, natSqrtFrom]

/-- Evaluation of the exact rational square root at 4. -/
theorem ratSqrt_four : ratSqrt 4 = 2 := by
  norm_num [ratSqrt, natSqrt, natSqrtFrom]
  omega

/-- Evaluation of the exact rational square root at 25. -/
theorem ratSqrt_twentyfive : ratSqrt 25 = 5 := by
  norm_num [ratSqrt, natSqrt, natSqrtFrom]
  omega

/-- Evaluation of the exact rational square root at the non-square 52 (the
junk value 0 — the source would compute the irrational float `sqrt 52`, but
every value this development reads downstream of such a call is discarded
before influencing pool state). -/
theorem ratSqrt_fiftytwo : ratSqrt 52 = 0 := by
  norm_num [ratSqrt, natSqrt, natSqrtFrom]
  omega

/-- Claim C6: for every engine state, rate function and swap function, the
arbitrage loop executes at most `arb_actions` (the fuel) swaps, and every
executed trade's tracked candidate had `rate > 1` and a positive `in_amt`. -/
theorem c6_arbitrage_bounded {σ : Type} (cand : σ → List (String × String))
    (rateOf : σ → String × String → RateDict)
    (swapEx : σ → InputTx → ℚ → Option (OutputTx × σ)) (lim : ℚ)
    (fuel : ℕ) (st : σ) (info : (String × String) × RateDict) :
    (arbLoop cand rateOf swapEx lim fuel st info).1.length ≤ fuel ∧
    ∀ g ∈ (arbLoop cand rateOf swapEx lim fuel st info).2.2,
      g.2.rate > 1 ∧ g.2.in_amt > 0 := by
  induction fuel generalizing st info with
  | zero => simp [arbLoop]
  | succ n ih =>
    rw [arbLoop]
    by_cases hc : (scanPools (rateOf st) lim (cand st) info).2.rate > 1 ∧
        (scanPools (rateOf st) lim (cand st) info).2.in_amt > 0
    · rw [if_pos hc]
      rcases hsw : swapEx st
          ⟨(scanPools (rateOf st) lim (cand st) info).1.1,
            (scanPools (rateOf st) lim (cand st) info).1.2,
            (scanPools (rateOf st) lim (cand st) info).2.in_amt, false⟩
          (scanPools (rateOf st) lim (cand st) info).2.out_amt with _ | ⟨otx, st'⟩
      · simp
      · obtain ⟨ih1, ih2⟩ := ih st' (scanPools (rateOf st) lim (cand st) info)
        refine ⟨by simpa using Nat.succ_le_succ ih1, ?_⟩
        intro g hg
        simp only [List.mem_cons] at hg
        rcases hg with hg | hg
        · rw [hg]; exact hc
        · exact ih2 g hg
    · rw [if_neg hc]; simp

/-- Claim C5, amended: the best-candidate tracker is initialized once and
never reset, so one scan pass can only raise its tracked rate, and the loop
stops exactly when the carried (possibly stale) tracker — not a fresh scan —
holds no candidate with rate above 1 and positive input amount. -/
theorem c5_amended_tracker_persists {σ : Type} (cand : σ → List (String × String))
    (rateOf : σ → String × String → RateDict)
    (swapEx : σ → InputTx → ℚ → Option (OutputTx × σ)) (lim : ℚ)
    (fuel : ℕ) (st : σ) (info : (String × String) × RateDict)
    (hstop : ¬ ((scanPools (rateOf st) lim (cand st) info).2.rate > 1 ∧
                (scanPools (rateOf st) lim (cand st) info).2.in_amt > 0)) :
    info.2.rate ≤ (scanPools (rateOf st) lim (cand st) info).2.rate ∧
    arbLoop cand rateOf swapEx lim (fuel + 1) st info = ([], [], []) := by
  refine ⟨scanPools_rate_mono _ _ _ _, ?_⟩
  rw [arbLoop]
  rw [if_neg hstop]

/-- Witness for the amended C5 at a concrete trivial engine: with no
candidate pools the scan returns the initial tracker (rate -1), the stopping
condition fires, and the loop executes nothing. -/
theorem c5_amended_tracker_persists_witness :
    (¬ ((scanPools (trivialRateOf []) 0 (trivialCand []) arbInfoInit).2.rate > 1 ∧
        (scanPools (trivialRateOf []) 0 (trivialCand []) arbInfoInit).2.in_amt > 0)) ∧
    (arbInfoInit.2.rate ≤
        (scanPools (trivialRateOf []) 0 (trivialCand []) arbInfoInit).2.rate ∧
      arbLoop trivialCand trivialRateOf trivialSwap 0 (0 + 1) [] arbInfoInit =
        ([], [], [])) :=
  ⟨by norm_num [scanPools, trivialCand, arbInfoInit],
    c5_amended_tracker_persists trivialCand trivialRateOf trivialSwap 0 0 [] arbInfoInit
      (by norm_num [scanPools, trivialCand, arbInfoInit])⟩

/-- Claim C5, counterexample: on a concrete two-token constant-product
multi-token engine (balances A=4, B=1, all prices 1) with
`arb_actions = 2`, the first iteration executes the candidate (B, A) with
tracked rate 2; the post-trade pool (A=2, B=2) is at equilibrium, so a fresh
re-scan yields no qualifying candidate (its tracker keeps the initial
rate -1), yet the loop does not stop: it executes a second trade, reusing
verbatim the stale candidate discovered in the first iteration's scan. -/
theorem c5_counterexample :
    (mammArbitrage wPrices [] 2 lim5 st5).1.length = 2 ∧
    (mammArbitrage wPrices [] 2 lim5 st5).2.2 =
      [(("B", "A"), ⟨1, 2, 2⟩), (("B", "A"), ⟨1, 2, 2⟩)] ∧
    (mammArbitrage wPrices [] 2 lim5 st5).2.1.head? = some [("A", 2, 0), ("B", 2, 0)] ∧
    ¬ ((freshScanMamm wPrices [] lim5 [("A", 2, 0), ("B", 2, 0)]).2.rate > 1 ∧
       (freshScanMamm wPrices [] lim5 [("A", 2, 0), ("B", 2, 0)]).2.in_amt > lim5) := by
  have e1 : mammRateOf wPrices st5 ("A", "B") = ⟨-2, -1, 1/2⟩ := by
    simp [mammRateOf, getRateMulti, getRateCore, mammCalcEq, MultiState.bal,
      MultiState.lookup, wPrices, st5]
    norm_num [ratSqrt_four]
  have e2 : mammRateOf wPrices st5 ("B", "A") = ⟨1, 2, 2⟩ := by
    simp [mammRateOf, getRateMulti, getRateCore, mammCalcEq, MultiState.bal,
      MultiState.lookup, wPrices, st5]
    norm_num [ratSqrt_four]
  have e4 : mammRateOf wPrices [("A", 2, 0), ("B", 2, 0)] ("A", "B") = ⟨0, 0, 1⟩ := by
    simp [mammRateOf, getRateMulti, getRateCore, mammCalcEq, MultiState.bal,
      MultiState.lookup, wPrices]
    norm_num [ratSqrt_four]
  have e5 : mammRateOf wPrices [("A", 2, 0), ("B", 2, 0)] ("B", "A") = ⟨0, 0, 1⟩ := by
    simp [mammRateOf, getRateMulti, getRateCore, mammCalcEq, MultiState.bal,
      MultiState.lookup, wPrices]
    norm_num [ratSqrt_four]
  have htok : MultiState.tokens st5 = ["A", "B"] := rfl
  have hs1 : scanPools (mammRateOf wPrices st5) lim5 (multiCandidates [] st5.tokens)
      arbInfoInit = (("B", "A"), ⟨1, 2, 2⟩) := by
    norm_num [scanPools, scanStep, multiCandidates, htok, arbInfoInit, e1, e2, lim5]
  have hs2 : scanPools (mammRateOf wPrices [("A", 2, 0), ("B", 2, 0)]) lim5
      (multiCandidates [] (MultiState.tokens [("A", 2, 0), ("B", 2, 0)]))
      (("B", "A"), ⟨1, 2, 2⟩) = (("B", "A"), ⟨1, 2, 2⟩) := by
    norm_num [scanPools, scanStep, multiCandidates, MultiState.tokens, e4, e5, lim5]
  have hswap1 : MAMM.swap wPrices st5 ⟨"B", "A", 1, false⟩ =
      some (⟨"B", "A", 1, 4, 2, 2, 1, 3/2⟩, [("A", 2, 0), ("B", 2, 0)]) := by
    simp [MAMM.swap, engineSwapMulti, MultiState.bal, MultiState.lookup,
      MultiState.addBal, wPrices, st5]
    norm_num
  have hswap2 : MAMM.swap wPrices [("A", 2, 0), ("B", 2, 0)] ⟨"B", "A", 1, false⟩ =
      some (⟨"B", "A", 2, 2, 3, 4/3, 1, 3⟩, [("A", 4/3, 0), ("B", 3, 0)]) := by
    simp [MAMM.swap, engineSwapMulti, MultiState.bal, MultiState.lookup,
      MultiState.addBal, wPrices]
    norm_num
  have hrun : mammArbitrage wPrices [] 2 lim5 st5 =
      ([⟨"B", "A", 1, 4, 2, 2, 1, 3/2⟩, ⟨"B", "A", 2, 2, 3, 4/3, 1, 3⟩],
       [[("A", 2, 0), ("B", 2, 0)], [("A", 4/3, 0), ("B", 3, 0)]],
       [(("B", "A"), ⟨1, 2, 2⟩), (("B", "A"), ⟨1, 2, 2⟩)]) := by
    unfold mammArbitrage
    norm_num [arbLoop, hs1, hs2, hswap1, hswap2]
  have hfresh : freshScanMamm wPrices [] lim5 [("A", 2, 0), ("B", 2, 0)] =
      arbInfoInit := by
    norm_num [freshScanMamm, scanPools, scanStep, multiCandidates,
      MultiState.tokens, e4, e5, lim5, arbInfoInit]
  refine ⟨by rw [hrun]; rfl, by rw [hrun], by rw [hrun]; rfl, ?_⟩
  rw [hfresh]
  norm_num [arbInfoInit, lim5]

/-- Claim C7, amended: whenever `getRate`'s implied internal rate is zero or
undefined (output removable equal to zero), the internal rate — not the
returned ratio — defaults to 1, so the `rate` entry of the returned
dictionary equals the external market rate. -/
theorem c7_internal_rate_defaults_to_market (market_rate in_e out_e in_bal out_bal : ℚ)
    (h : out_bal - out_e = 0 ∨ (in_e - in_bal) / (out_bal - out_e) = 0) :
    (getRateCore market_rate in_e out_e in_bal out_bal).rate = market_rate := by
  unfold getRateCore
  rcases h with h | h
  · simp [h]
  · by_cases h0 : out_bal - out_e = 0 <;> simp [h0, h]

/-- Witness for the amended C7: a concrete call with zero output removable
returns the market rate 2. -/
theorem c7_internal_rate_defaults_to_market_witness :
    ((1 : ℚ) - 1 = 0 ∨ ((2 : ℚ) - 2) / ((1 : ℚ) - 1) = 0) ∧
    (getRateCore 2 2 1 2 1).rate = 2 :=
  ⟨Or.inl (by norm_num),
    c7_internal_rate_defaults_to_market 2 2 1 2 1 (Or.inl (by norm_num))⟩

/-- Claim C7, counterexample: on the multi-token constant-product engine
with pool A=2, B=1 and prices A=1, B=2, the pool is exactly at the (A, B)
equilibrium, so `getRate` has zero output removable (implied internal rate
undefined); the returned `rate` is the market rate 2, not the claimed
no-arbitrage signal 1. -/
theorem c7_counterexample :
    (mammRateOf prices7 st7 ("A", "B")).out_amt = 0 ∧
    (mammRateOf prices7 st7 ("A", "B")).rate = 2 ∧
    (mammRateOf prices7 st7 ("A", "B")).rate ≠ 1 := by
  have h : mammRateOf prices7 st7 ("A", "B") = ⟨0, 0, 2⟩ := by
    simp [mammRateOf, getRateMulti, getRateCore, mammCalcEq, MultiState.bal,
      MultiState.lookup, prices7, st7]
    norm_num [ratSqrt_one]
  rw [h]
  norm_num

/-- Lookup after an in-place balance increment: the incremented token's
entry gains `d` on its balance and keeps its `k`; every other lookup is
unchanged. -/
theorem MultiState.lookup_addBal (st : MultiState) (tok : String) (d : ℚ) (q : String) :
    (MultiState.addBal st tok d).lookup q =
      if q = tok then (MultiState.lookup st tok).map (fun bk => (bk.1 + d, bk.2))
      else MultiState.lookup st q := by
  induction st with
  | nil => simp [MultiState.addBal, MultiState.lookup]
  | cons hd tl ih =>
    obtain ⟨t, b, k⟩ := hd
    by_cases htok : tok = t
    · subst htok
      by_cases hq : q = tok <;>
        simp [MultiState.addBal, MultiState.lookup, hq]
    · by_cases hq : q = t
      · subst hq
        have hqt : ¬q = tok := fun hc => htok (hc ▸ rfl)
        simp [MultiState.addBal, MultiState.lookup, htok, hqt]
      · simp [MultiState.addBal, MultiState.lookup, htok, hq, ih]

/-- An update map whose successive iterates always differ by 1 never meets
the 1e-5 tolerance, so the Newton loop exhausts its cap and crashes. -/
theorem newtonLoop_addOne (fuel : ℕ) (approx : ℚ) :
    newtonLoop (fun x => x + 1) (1 / 100000) fuel approx (approx + 1) =
      NewtonOutcome.zeroDivisionCrash := by
  induction fuel generalizing approx with
  | zero =>
    rw [newtonLoop, if_pos]
    rw [add_sub_cancel_left]
    norm_num
  | succ n ih =>
    rw [newtonLoop, if_pos]
    · exact ih (approx + 1)
    · rw [add_sub_cancel_left]
      norm_num

/-- Claim C3 (code bug): when the Newton solver reaches its 1000-iteration
cap — here driven by an update map whose successive iterates always differ
by `1 > 1e-5` — the modelled `MPMM.__newtonMethod` produces the
`zeroDivisionCrash` outcome: the source prints a diagnostic dictionary and
then evaluates `print(1/0)`, an unrelated untyped `ZeroDivisionError`,
instead of surfacing the typed solver-failure error the specification
requires. -/
theorem c3_newton_cap_is_zero_division_crash :
    newtonMethod (fun x => x + 1) (1 / 100000) 1 1 1 1 =
      NewtonOutcome.zeroDivisionCrash := by
  have hinit : newtonInit 1 1 1 1 = 1 := by norm_num [newtonInit]
  unfold newtonMethod
  rw [hinit]
  exact newtonLoop_addOne 999 1

/-- Claim C10: an executed engine swap mutates only the two involved pool
entries.  Pairwise: every entry other than `(in, out)` and `(out, in)` is
unchanged and every entry (including the two involved ones) keeps its `k`.
Multi-token: every token other than the input and output tokens keeps its
entry and every token (including the two involved ones) keeps its `k`.  On
the full engine state the live price vector is unchanged. -/
theorem c10_swap_frame (prices : Prices) (stp : PairState) (stm : MultiState)
    (tx : InputTx) (o : ℚ) :
    (∀ otx stp', engineSwapPair prices stp tx o = some (otx, stp') →
      (∀ pr, pr ≠ (tx.intype, tx.outtype) → pr ≠ (tx.outtype, tx.intype) →
        stp' pr = stp pr) ∧
      (∀ pr x y k, stp pr = some (x, y, k) → ∃ x' y', stp' pr = some (x', y', k))) ∧
    (∀ otx stm', engineSwapMulti prices stm tx o = some (otx, stm') →
      (∀ tok, tok ≠ tx.intype → tok ≠ tx.outtype →
        MultiState.lookup stm' tok = MultiState.lookup stm tok) ∧
      (∀ tok b k, MultiState.lookup stm tok = some (b, k) →
        ∃ b', MultiState.lookup stm' tok = some (b', k))) ∧
    (∀ es otx es', swapFullPair es tx o = some (otx, es') → es'.prices = es.prices) ∧
    (∀ es otx es', swapFullMulti es tx o = some (otx, es') → es'.prices = es.prices) := by
  refine ⟨?_, ?_, ?_, ?_⟩
  · intro otx stp' h
    unfold engineSwapPair at h
    rcases hF : stp (tx.intype, tx.outtype) with _ | ⟨in0, out0, k0⟩
    · rw [hF] at h; exact absurd h (by simp)
    rw [hF] at h
    simp only at h
    set st1 := stp.store (tx.intype, tx.outtype) (in0 + tx.inval, out0 - o, k0) with hst1
    rcases hR : st1 (tx.outtype, tx.intype) with _ | ⟨r0, r1, rk⟩
    · rw [hR] at h; exact absurd h (by simp)
    rw [hR] at h
    simp only [Option.some.injEq, Prod.mk.injEq] at h
    obtain ⟨-, hst'⟩ := h
    subst hst'
    constructor
    · intro pr hprF hprR
      rw [PairState.store_other _ _ _ _ hprR, hst1, PairState.store_other _ _ _ _ hprF]
    · intro pr x y k hpr
      by_cases hprR : pr = (tx.outtype, tx.intype)
      · subst hprR
        rw [PairState.store_same]
        by_cases hRF : (tx.outtype, tx.intype) = (tx.intype, tx.outtype)
        · have hRv : st1 (tx.outtype, tx.intype) = some (in0 + tx.inval, out0 - o, k0) := by
            rw [hst1, hRF, PairState.store_same]
          rw [hR] at hRv
          obtain ⟨h1, h2, h3⟩ : in0 + tx.inval = r0 ∧ out0 - o = r1 ∧ k0 = rk := by
            simpa using hRv.symm
          have hk : k = k0 := by
            rw [hRF] at hpr
            rw [hF] at hpr
            simpa using (congrArg (fun v => (Option.map (fun u => u.2.2) v).getD 0) hpr).symm
          exact ⟨r0 - o, r1 + tx.inval, by rw [← h3, hk]⟩
        · have hRv : st1 (tx.outtype, tx.intype) = stp (tx.outtype, tx.intype) := by
            rw [hst1, PairState.store_other _ _ _ _ hRF]
          rw [hR, hpr] at hRv
          obtain ⟨-, -, h3⟩ : r0 = x ∧ r1 = y ∧ rk = k := by simpa using hRv
          exact ⟨r0 - o, r1 + tx.inval, by rw [h3]⟩
      · rw [PairState.store_other _ _ _ _ hprR, hst1]
        by_cases hprF : pr = (tx.intype, tx.outtype)
        · subst hprF
          rw [PairState.store_same]
          rw [hF] at hpr
          obtain ⟨-, -, h3⟩ : in0 = x ∧ out0 = y ∧ k0 = k := by simpa using hpr
          exact ⟨in0 + tx.inval, out0 - o, by rw [h3]⟩
        · rw [PairState.store_other _ _ _ _ hprF]
          exact ⟨x, y, hpr⟩
  · intro otx stm' h
    unfold engineSwapMulti at h
    rcases hI : MultiState.lookup stm tx.intype with _ | ⟨i0, ik⟩
    · rw [hI] at h; exact absurd h (by simp)
    rcases hO : MultiState.lookup stm tx.outtype with _ | ⟨o0, ok⟩
    · rw [hI, hO] at h; exact absurd h (by simp)
    rw [hI, hO] at h
    simp only [Option.some.injEq, Prod.mk.injEq] at h
    obtain ⟨-, hst'⟩ := h
    subst hst'
    constructor
    · intro tok hin hout
      rw [MultiState.lookup_addBal, if_neg hout, MultiState.lookup_addBal, if_neg hin]
    · intro tok b k htok
      simp only [MultiState.lookup_addBal]
      by_cases hout : tok = tx.outtype
      · rw [if_pos hout]
        rw [hout] at htok
        by_cases hin : tx.outtype = tx.intype
        · rw [if_pos hin]
          rw [hin] at htok
          exact ⟨b + tx.inval + -o, by simp [htok]⟩
        · rw [if_neg hin]
          exact ⟨b + -o, by simp [htok]⟩
      · rw [if_neg hout]
        by_cases hin : tok = tx.intype
        · rw [if_pos hin]
          rw [hin] at htok
          exact ⟨b + tx.inval, by simp [htok]⟩
        · rw [if_neg hin]
          exact ⟨b, htok⟩
  · intro es otx es' h
    unfold swapFullPair at h
    rcases hsw : engineSwapPair es.prices es.token_info tx o with _ | ⟨otx0, st0⟩
    · rw [hsw] at h; exact absurd h (by simp)
    · rw [hsw] at h
      simp only [Option.some.injEq, Prod.mk.injEq] at h
      obtain ⟨-, hst'⟩ := h
      rw [← hst']
  · intro es otx es' h
    unfold swapFullMulti at h
    rcases hsw : engineSwapMulti es.prices es.token_info tx o with _ | ⟨otx0, st0⟩
    · rw [hsw] at h; exact absurd h (by simp)
    · rw [hsw] at h
      simp only [Option.some.injEq, Prod.mk.injEq] at h
      obtain ⟨-, hst'⟩ := h
      rw [← hst']

/-- Witness for C10: on the concrete pairwise pool the swap leaves the
unrelated key `(B, C)` unchanged, and on the concrete multi-token pool the
unrelated token `C` keeps its (absent) entry. -/
theorem c10_swap_frame_witness :
    wSt4 ("B", "C") = wPairCS ("B", "C") ∧
    MultiState.lookup ((wMultiCS.addBal "A" wTx1.inval).addBal "B" (-1)) "C" =
      MultiState.lookup wMultiCS "C" := by
  have h := c10_swap_frame wPrices wPairCS wMultiCS wTx1 1
  refine ⟨(h.1 ⟨"A", "B", 5, 5, 5 + wTx1.inval, 5 - 1,
      wPrices "B" / wPrices "A", 1⟩ wSt4 rfl).1 ("B", "C") (by simp [wTx1])
      (by simp [wTx1]), ?_⟩
  exact (h.2.1 ⟨"A", "B", 5, 5, 5 + wTx1.inval, 5 - 1,
      wPrices "B" / wPrices "A", 1⟩ ((wMultiCS.addBal "A" wTx1.inval).addBal "B" (-1))
      rfl).1 "C" (by simp [wTx1]) (by simp [wTx1])

/-- Claim C8, amended: for every input and every valuation of the float
radicals, `__argMin` returns the real component of its closed-form
intermediate `ans` — a complex `ans` is not discarded and Newton's method is
not invoked; its real part is the answer (silent truncation, as spec §9
itself records). -/
theorem c8_complex_truncated_not_newton (sqrtC : ℚ → CQ) (cbrtC : CQ → CQ)
    (cbrt2 s l k p S L : ℚ) :
    mpmmArgMin sqrtC cbrtC cbrt2 s l k p S L =
      (mpmmArgMinAns sqrtC cbrtC cbrt2 s l k p S L).re := by
  simp only [mpmmArgMin, ite_self]

/-- Claim C8, counterexample: at the concrete input `s = l = k = p = S = L
= 1`, with the square-root oracle returning the purely imaginary unit
(modelling `(negative float) ** 0.5`) and the cube-root oracle the
identity, the quartic intermediate `ans` is genuinely complex (nonzero
imaginary part), yet `__argMin` returns its real component — part of the
complex value is used as the answer, and no fallback to Newton's method
occurs — contradicting the claim that a complex result is discarded in
favour of Newton's method. -/
theorem c8_counterexample :
    (mpmmArgMinAns (fun _ => ⟨0, 1⟩) (fun z => z) 1 1 1 1 1 1 1).im ≠ 0 ∧
    mpmmArgMin (fun _ => ⟨0, 1⟩) (fun z => z) 1 1 1 1 1 1 1 =
      (mpmmArgMinAns (fun _ => ⟨0, 1⟩) (fun z => z) 1 1 1 1 1 1 1).re := by
  constructor
  · norm_num [mpmmArgMinAns, CQ.ofQ, CQ.add, CQ.sub, CQ.mul, CQ.div]
  · simp only [mpmmArgMin, ite_self]

/-- Within one reset-mode batch, every transaction begins with the pool
state equal to the threaded `token_info_copy` (the per-transaction restore
target never drifts). -/
theorem runBatchReset_preTx {σ : Type} (swapStep : σ × σ → InputTx → σ × σ)
    (txs : List InputTx) (eq : σ) (ti_copy : σ) :
    ∀ pre ∈ (runBatchReset swapStep txs (ti_copy, eq) ti_copy).2, pre.1 = ti_copy := by
  induction txs generalizing eq with
  | nil => simp [runBatchReset]
  | cons tx rest ih =>
    intro pre hpre
    simp only [runBatchReset, List.mem_cons] at hpre
    rcases hpre with h | h
    · rw [h]
    · exact ih _ pre h

/-- Claim C9, amended: in reset-per-transaction mode, `simulate_traffic`
restores the Pool State to the batch-start snapshot before every individual
transaction — every transaction of a batch begins with `token_info` equal
to the batch's `startTok` — but only the Pool State: the Equilibrium
Snapshot is restored solely at batch boundaries, so a transaction may see
an `equilibriums` value mutated by an earlier transaction of the same
batch. -/
theorem c9_pool_state_restored_each_tx {σ : Type}
    (swapStep : Prices → σ × σ → InputTx → σ × σ)
    (batches : List (Prices × List InputTx)) (st copies : σ × σ) :
    ∀ bt ∈ simulateTrafficReset swapStep batches st copies,
      ∀ pre ∈ bt.preTx, pre.1 = bt.startTok := by
  induction batches generalizing st copies with
  | nil => simp [simulateTrafficReset]
  | cons b more ih =>
    obtain ⟨prices, batch⟩ := b
    intro bt hbt
    simp only [simulateTrafficReset, List.mem_cons] at hbt
    rcases hbt with h | h
    · subst h
      exact runBatchReset_preTx _ _ _ _
    · exact ih _ _ bt h

/-- Witness for the amended C9 at a concrete trivial engine: a one-batch,
one-transaction run whose single recorded pre-transaction pool state equals
the batch-start snapshot. -/
theorem c9_pool_state_restored_each_tx_witness :
    ((⟨[], [], [([], [])]⟩ : BatchTrace MultiState) ∈
        simulateTrafficReset (fun _ st _ => st) [(wPrices, [tx9])]
          (([] : MultiState), ([] : MultiState)) ([], [])) ∧
    ((([], []) : MultiState × MultiState) ∈
        (⟨[], [], [([], [])]⟩ : BatchTrace MultiState).preTx) ∧
    ((([], []) : MultiState × MultiState).1 =
        (⟨[], [], [([], [])]⟩ : BatchTrace MultiState).startTok) := by
  have hbt : (⟨[], [], [([], [])]⟩ : BatchTrace MultiState) ∈
      simulateTrafficReset (fun _ st _ => st) [(wPrices, [tx9])]
        (([] : MultiState), ([] : MultiState)) ([], []) := by
    simp [simulateTrafficReset, runBatchReset]
  have hpre : (([], []) : MultiState × MultiState) ∈
      (⟨[], [], [([], [])]⟩ : BatchTrace MultiState).preTx := by simp
  exact ⟨hbt, hpre,
    c9_pool_state_restored_each_tx _ _ _ _ _ hbt _ hpre⟩

/-- Claim C9, counterexample: a reset-mode PMM run with two identical
transactions in one batch.  The first executed swap writes
`equilibriums[("A","B")] = [6, 4, 1/2]` (the override `k`), but the
per-transaction reset restores only `token_info`; the state recorded at the
start of the second transaction therefore carries an Equilibrium Snapshot
entry `(6, 4, 1/2)` different from the batch-start snapshot entry
`(6, 4, 3/8)` — the two transactions of the batch do not execute against
the identical restored state, contradicting the claim that both the Pool
State and the Equilibrium Snapshot are restored before every individual
transaction. -/
theorem c9_counterexample :
    (((simulateTrafficReset pmmStep [(wPrices, [tx9, tx9])] (ti0, eq0)
          (ti0, eq0)).get? 0).map
        (fun bt => (bt.preTx.get? 1).map (fun pre => pre.2 ("A", "B")))) =
      some (some (some (6, 4, 1/2))) ∧
    (((simulateTrafficReset pmmStep [(wPrices, [tx9, tx9])] (ti0, eq0)
          (ti0, eq0)).get? 0).map (fun bt => bt.startEq ("A", "B"))) =
      some (some (6, 4, 3/8)) ∧
    ((6, 4, (1 : ℚ)/2) : ℚ × ℚ × ℚ) ≠ (6, 4, 3/8) := by
  have hti : ti0 (tx9.intype, tx9.outtype) = some (6, 4, 1/2) := rfl
  have hce : PMM.calculateEquilibriums wPrices ti0 eq0 tx9.intype tx9.outtype =
      some (6, 4) := by
    simp [PMM.calculateEquilibriums, ti0, eq0, wPrices, tx9]
    norm_num [ratSqrt_one]
  have heng : ∀ X : ℚ, engineSwapPair wPrices ti0 tx9 X =
      some (⟨"A", "B", 6, 4, 6 + tx9.inval, 4 - X, wPrices "B" / wPrices "A", 1⟩,
        (ti0.store ("A", "B") (6 + tx9.inval, 4 - X, 1/2)).store ("B", "A")
          (4 - X, 6 + tx9.inval, 1/2)) := fun X => rfl
  have hproj : (pmmStep wPrices (ti0, eq0) tx9).2 =
      (eq0.store ("A", "B") (6, 4, 1/2)).store ("B", "A") (4, 6, 1/2) := by
    unfold pmmStep PMM.swap
    simp only [hti, hce, heng]
    rfl
  refine ⟨?_, ?_, by norm_num [Prod.ext_iff]⟩
  · simp only [simulateTrafficReset, runBatchReset, List.get?, Option.map_some]
    rw [hproj]
    simp [PairState.store]
  · simp only [simulateTrafficReset, List.get?, Option.map_some]
    simp [eq0]

end DexCE
